import Mathlib

/-!
Shallow embedding of the turn-based RPG combat / progression engine
(core modules: entities, effects, combat, items, loot, progression).

Numeric conventions:
* Python ints are modelled as `ℤ`, Python floats as `ℚ` (the engine only
  ever combines literals from content data with integer stats, so rational
  arithmetic models the computations exactly up to floating-point rounding,
  which the spec declares a non-goal).
* Python `int(x)` truncates toward zero: `pyInt`.
* The module-global `random` generator is modelled as three outcome
  streams (floats in `[0,1)`, raw naturals for `randint`, raw naturals for
  `choice`) consumed at explicit cursor positions carried in the battle
  state.
* Python `dict` inventories are modelled as total functions with default
  0 (a popped key and a key stored as 0 are indistinguishable through
  `dict.get(k, 0)`).
* An `Optional[str]`-typed id that Python tests for truthiness is
  modelled as `Option String` (falsy = `none`).
-/

namespace TCTP

/-- Python `int()` applied to a rational: truncation toward zero. -/
def pyInt (q : ℚ) : ℤ := if q < 0 then ⌈q⌉ else ⌊q⌋

theorem pyInt_nonneg (q : ℚ) (h : 0 ≤ q) : 0 ≤ pyInt q := by
  unfold pyInt
  split
  · rename_i hq
    exact absurd hq (not_lt.mpr h)
  · exact Int.le_floor.mpr (by exact_mod_cast h)

theorem pyInt_of_nonneg (q : ℚ) (h : 0 ≤ q) : pyInt q = ⌊q⌋ := by
  unfold pyInt
  split
  · rename_i hq
    exact absurd hq (not_lt.mpr h)
  · rfl

/-- `entities.Stats`: the five-field stat bundle. -/
structure Stats where
  attack : ℤ := 0
  magic : ℤ := 0
  defense : ℤ := 0
  magic_resist : ℤ := 0
  max_hp : ℤ := 0
  deriving DecidableEq, Repr

/-- `Stats.with_bonus`: fieldwise addition of a bonus bundle. -/
def Stats.with_bonus (s b : Stats) : Stats where
  attack := s.attack + b.attack
  magic := s.magic + b.magic
  defense := s.defense + b.defense
  magic_resist := s.magic_resist + b.magic_resist
  max_hp := s.max_hp + b.max_hp

def Stats.zero : Stats := {}

/-- `effects.EffectInstance`: a timed battle effect attached to an actor.
`stats_delta` keeps only the five stat keys (the only keys ever read). -/
structure EffectInstance where
  kind : String
  duration : ℤ
  power : ℚ := 0
  stats_delta : Stats := {}
  deriving DecidableEq, Repr

/-- A normalized `apply_effect` spec from skill / item / gimmick data
(`type`/`effect` already resolved into `etype`, defaults resolved). -/
structure EffectSpec where
  target : String := "self"
  etype : String
  chance : ℚ := 1
  duration : ℤ := 0
  power : ℚ := 0
  stats : Stats := {}
  deriving DecidableEq, Repr

/-- `effects.has_effect`. -/
def hasEffect (effects : List EffectInstance) (kind : String) : Bool :=
  effects.any fun e => e.kind == kind && decide (0 < e.duration)

/-- `effects.can_act` (pure part; the log line is appended by callers). -/
def canAct (effects : List EffectInstance) : Bool :=
  !(hasEffect effects "stun")

/-- `effects.tick_end_of_turn`, acting on an actor's (hp, effects) pair:
bleed damage first, then decrement the duration, keep if still positive. -/
def tickEffectsCore : ℚ → List EffectInstance → ℚ × List EffectInstance
  | hp, [] => (hp, [])
  | hp, e :: rest =>
      let hp1 := if e.kind == "bleed" then max 0 (hp - e.power) else hp
      let e1 : EffectInstance := { e with duration := e.duration - 1 }
      let tl := tickEffectsCore hp1 rest
      if 0 < e1.duration then (tl.1, e1 :: tl.2) else (tl.1, tl.2)

/-- `Actor._effect_bonus`: sum the stat deltas of active buff/debuff
effects. -/
def effBonus (effects : List EffectInstance) : Stats :=
  effects.foldl
    (fun b e =>
      if 0 < e.duration && (e.kind == "buff_stats" || e.kind == "debuff_stats") then
        b.with_bonus e.stats_delta
      else b)
    Stats.zero

/-- Special effect carried by an item (`stat_multiplier` or `on_hit`),
with all fields resolved to defaults. -/
structure Special where
  stype : String
  stat : String := ""
  mult : ℚ := 1
  chance : ℚ := 0
  effect : String := ""
  duration : ℤ := 1
  power : ℚ := 0
  deriving DecidableEq, Repr

/-- A consumable's `use_effect`. -/
structure UseEffect where
  utype : String
  power : ℤ := 0
  remove : List String := []
  duration : ℤ := 1
  stats : Stats := {}
  deriving DecidableEq, Repr

/-- Catalog item definition (fields used by the engine). -/
structure Item where
  name : String := ""
  itype : String
  slot : String := ""
  stats : Stats := {}
  special : Option Special := none
  use_effect : Option UseEffect := none
  deriving DecidableEq, Repr

/-- Catalog skill definition, scale factors resolved with default 0 and
`apply_effect` normalized to a list. -/
structure Skill where
  name : String := ""
  base_physical : ℚ := 0
  base_magic : ℚ := 0
  scale_attack : ℚ := 0
  scale_magic : ℚ := 0
  apply_effect : List EffectSpec := []
  deriving DecidableEq, Repr

/-- A drop-table entry (`loot.py`); `item` is `None`-able in the data. -/
structure DropEntry where
  item : Option String := none
  chance : ℚ := 0
  minQ : ℤ := 1
  maxQ : ℤ := 1
  deriving DecidableEq, Repr

/-- A boss gimmick entry with its action payload flattened
(`action.type` = `action_type`, `action.target` default "player",
`action.effect`, `action.duration` default 1, `action.power` default 0). -/
structure Gimmick where
  trigger : String := ""
  n : ℤ := 1
  ratioVal : ℚ := 0
  once : Bool := false
  action_type : String := ""
  target : String := "player"
  effect : String := ""
  duration : ℤ := 1
  power : ℚ := 0
  deriving DecidableEq, Repr

/-- Equipment slots (`weapon` / `armor` / `accessory`). -/
structure Equipment where
  weapon : Option String := none
  armor : Option String := none
  accessory : Option String := none
  deriving DecidableEq, Repr

/-- `entities.Player` (fields the engine reads). -/
structure Player where
  name : String := "player"
  base_stats : Stats := {}
  hp : ℚ := 0
  effects : List EffectInstance := []
  level : ℤ := 1
  exp : ℤ := 0
  stat_points : ℤ := 0
  inventory : String → ℤ := fun _ => 0
  equipment : Equipment := {}
  allocated_stats : Stats := {}

/-- `entities.Enemy` (fields the engine reads). -/
structure Enemy where
  name : String := "enemy"
  stats : Stats := {}
  hp : ℚ := 0
  skills : List String := []
  effects : List EffectInstance := []
  ai : String := "basic"
  gimmicks : List Gimmick := []
  deriving DecidableEq, Repr

/-- The read-only content catalog handed to `BattleEngine`. -/
structure DataStore where
  skills : String → Option Skill := fun _ => none
  items : String → Option Item := fun _ => none
  drop_tables : String → List DropEntry := fun _ => []

/-- Outcome streams of the module-global `random` generator. -/
structure Rng where
  floats : ℕ → ℚ := fun _ => 0
  ints : ℕ → ℕ := fun _ => 0
  choices : ℕ → ℕ := fun _ => 0

/-- `Enemy.get_total_stats`: base stats plus active effect bonuses. -/
def enemyTotalStats (e : Enemy) : Stats :=
  e.stats.with_bonus (effBonus e.effects)

/-- The equipped item ids in slot iteration order (weapon, armor,
accessory), falsy slots skipped, unresolvable ids skipped. -/
def slotItems (ds : DataStore) (eq : Equipment) : List Item :=
  ([eq.weapon, eq.armor, eq.accessory].filterMap id).filterMap ds.items

/-- Per-field multipliers accumulated from `stat_multiplier` specials of
the equipped items; a multiplier not greater than 0 or an unknown stat
key is ignored. -/
structure QMults where
  attack : ℚ := 1
  magic : ℚ := 1
  defense : ℚ := 1
  magic_resist : ℚ := 1
  max_hp : ℚ := 1
  deriving DecidableEq, Repr

def applyMult (m : QMults) (it : Item) : QMults :=
  match it.special with
  | some sp =>
      if sp.stype == "stat_multiplier" && decide (0 < sp.mult) then
        if sp.stat == "attack" then { m with attack := m.attack * sp.mult }
        else if sp.stat == "magic" then { m with magic := m.magic * sp.mult }
        else if sp.stat == "defense" then { m with defense := m.defense * sp.mult }
        else if sp.stat == "magic_resist" then { m with magic_resist := m.magic_resist * sp.mult }
        else if sp.stat == "max_hp" then { m with max_hp := m.max_hp * sp.mult }
        else m
      else m
  | none => m

def itemMults (its : List Item) : QMults :=
  its.foldl applyMult {}

/-- `Player.total_stats`: allocated points, then equipped item stats, are
accumulated into a bonus; multipliers are collected; the battle effect
bonus is then added to the bonus; the base is bumped by the whole bonus in
one additive step and each field is multiplied and truncated. -/
def playerTotalStats (ds : DataStore) (p : Player) : Stats :=
  let its := slotItems ds p.equipment
  let bonus0 := its.foldl (fun b it => b.with_bonus it.stats) p.allocated_stats
  let m := itemMults its
  let bonus := bonus0.with_bonus (effBonus p.effects)
  let base := p.base_stats.with_bonus bonus
  { attack := pyInt ((base.attack : ℚ) * m.attack)
    magic := pyInt ((base.magic : ℚ) * m.magic)
    defense := pyInt ((base.defense : ℚ) * m.defense)
    magic_resist := pyInt ((base.magic_resist : ℚ) * m.magic_resist)
    max_hp := pyInt ((base.max_hp : ℚ) * m.max_hp) }

/-- `entities.BattleResult` (the display-string drop list is pure
formatting and is omitted; `drop_details` carries the data). -/
structure BattleResult where
  winner : String
  exp : ℤ := 0
  drop_details : List (String × ℤ) := []
  logs : List String := []
  deriving DecidableEq, Repr

/-- `combat.BattleState`, extended with the cursor positions of the three
random-outcome streams (`fi` floats, `ii` randints, `ci` choices). -/
structure BattleState where
  player : Player
  enemy : Enemy
  turn : ℤ := 1
  turn_index : ℤ := 1
  logs : List String := []
  expected_exp : ℤ := 0
  drop_table_id : Option String := none
  gimmick_used : ℕ → Bool := fun _ => false
  fi : ℕ := 0
  ii : ℕ := 0
  ci : ℕ := 0

def addLog (s : BattleState) (line : String) : BattleState :=
  { s with logs := s.logs ++ [line] }

/-- `Actor.apply_damage` on whichever actor is the defender. -/
def damageDefender (s : BattleState) (ip : Bool) (dmg : ℤ) : BattleState :=
  if ip then { s with enemy := { s.enemy with hp := max 0 (s.enemy.hp - dmg) } }
  else { s with player := { s.player with hp := max 0 (s.player.hp - dmg) } }

/-- `effects._target_max_hp` for the chosen actor of a battle state. -/
def targetMaxHp (ds : DataStore) (s : BattleState) (toPlayer : Bool) : ℤ :=
  if toPlayer then (playerTotalStats ds s.player).max_hp
  else (enemyTotalStats s.enemy).max_hp

/-- The part of `effects.apply_effect` after the chance gate. -/
def applyEffectBody (ds : DataStore) (s : BattleState) (toPlayer : Bool)
    (spec : EffectSpec) : BattleState :=
  if spec.etype == "heal" then
    let mh : ℚ := (targetMaxHp ds s toPlayer : ℤ)
    if toPlayer then
      { s with player := { s.player with hp := min mh (s.player.hp + pyInt spec.power) },
               logs := s.logs ++ ["heal"] }
    else
      { s with enemy := { s.enemy with hp := min mh (s.enemy.hp + pyInt spec.power) },
               logs := s.logs ++ ["heal"] }
  else if spec.etype == "lifesteal" then s
  else
    let inst : EffectInstance :=
      { kind := spec.etype, duration := spec.duration, power := spec.power,
        stats_delta := spec.stats }
    if spec.etype == "buff_stats" || spec.etype == "debuff_stats"
        || spec.etype == "bleed" || spec.etype == "stun" then
      if toPlayer then
        { s with player := { s.player with effects := s.player.effects ++ [inst] },
                 logs := s.logs ++ ["effect " ++ spec.etype] }
      else
        { s with enemy := { s.enemy with effects := s.enemy.effects ++ [inst] },
                 logs := s.logs ++ ["effect " ++ spec.etype] }
    else addLog s ("unknown effect " ++ spec.etype)

/-- `effects.apply_effect`: the chance gate rolls the generator only when
`chance < 1.0` (Python short-circuit), then dispatches on the kind. -/
def applyEffectTo (ds : DataStore) (rng : Rng) (s : BattleState) (toPlayer : Bool)
    (spec : EffectSpec) : BattleState :=
  if spec.chance < 1 then
    let draw := rng.floats s.fi
    let s0 := { s with fi := s.fi + 1 }
    if draw ≤ spec.chance then applyEffectBody ds s0 toPlayer spec
    else addLog s0 "effect failed"
  else applyEffectBody ds s toPlayer spec

/-- `loot.roll_drop` over a table, threading the float / randint cursors;
returns the emitted pairs and the final cursor positions. -/
def rollDropAux (rng : Rng) :
    List DropEntry → ℕ → ℕ → List (String × ℤ) × ℕ × ℕ
  | [], fi, ii => ([], fi, ii)
  | e :: rest, fi, ii =>
      if rng.floats fi ≤ e.chance then
        match e.item with
        | some id =>
            let lo := min e.minQ e.maxQ
            let hi := max e.minQ e.maxQ
            let qty := lo + (rng.ints ii : ℤ) % (hi - lo + 1)
            let tl := rollDropAux rng rest (fi + 1) (ii + 1)
            ((id, qty) :: tl.1, tl.2)
        | none => rollDropAux rng rest (fi + 1) ii
      else rollDropAux rng rest (fi + 1) ii

def rollDrop (rng : Rng) (table : List DropEntry) (fi ii : ℕ) :
    List (String × ℤ) × ℕ × ℕ :=
  rollDropAux rng table fi ii

/-- `items.add_item_to_inventory`. -/
def addItem (inv : String → ℤ) (id : String) (qty : ℤ) : String → ℤ :=
  fun j => if j = id then inv id + max 1 qty else inv j

/-- `items.remove_item_from_inventory` (dict pop of a key at 0 is
invisible through default-0 lookups). -/
def removeItem (inv : String → ℤ) (id : String) (qty : ℤ) : (String → ℤ) × Bool :=
  let need := max 1 qty
  if inv id < need then (inv, false)
  else ((fun j => if j = id then inv id - need else inv j), true)

def slotOk (slot : String) : Bool :=
  slot == "weapon" || slot == "armor" || slot == "accessory"

def getSlot (eq : Equipment) (slot : String) : Option String :=
  if slot == "weapon" then eq.weapon
  else if slot == "armor" then eq.armor
  else eq.accessory

/-- Writes a slot; only ever called with a validated slot name, the final
branch covers "accessory". -/
def setSlot (eq : Equipment) (slot : String) (v : Option String) : Equipment :=
  if slot == "weapon" then { eq with weapon := v }
  else if slot == "armor" then { eq with armor := v }
  else { eq with accessory := v }

/-- `items.equip_item`. -/
def equipItem (ds : DataStore) (p : Player) (item_id : String) :
    Player × Bool × String :=
  match ds.items item_id with
  | none => (p, false, "item not found")
  | some item =>
      if item.itype ≠ "equipment" then (p, false, "only equipment")
      else if ¬ slotOk item.slot then (p, false, "bad slot")
      else if p.inventory item_id ≤ 0 then (p, false, "not in inventory")
      else
        let p1 :=
          match getSlot p.equipment item.slot with
          | some prev => { p with inventory := addItem p.inventory prev 1 }
          | none => p
        let p2 := { p1 with equipment := setSlot p1.equipment item.slot (some item_id) }
        let p3 := { p2 with inventory := (removeItem p2.inventory item_id 1).1 }
        (p3, true, "equipped")

/-- `items.unequip_slot`. -/
def unequipSlot (p : Player) (slot : String) : Player × Bool × String :=
  if ¬ slotOk slot then (p, false, "bad slot")
  else
    match getSlot p.equipment slot with
    | none => (p, false, "nothing equipped")
    | some cur =>
        ({ p with inventory := addItem p.inventory cur 1,
                  equipment := setSlot p.equipment slot none },
         true, "unequipped")

/-- `items.apply_consumable_in_battle` (the player is the user). -/
def applyConsumableInBattle (ds : DataStore) (rng : Rng) (s : BattleState)
    (item_id : String) : BattleState × Bool × String :=
  match ds.items item_id with
  | none => (s, false, "item not found")
  | some item =>
      if item.itype ≠ "consumable" then (s, false, "only consumables")
      else
        let s0 := addLog s "use item"
        match item.use_effect with
        | none => (s0, false, "unknown consumable")
        | some ue =>
            if ue.utype == "heal" then
              let mh : ℚ := ((playerTotalStats ds s0.player).max_hp : ℤ)
              ({ s0 with
                  player := { s0.player with hp := min mh (s0.player.hp + ue.power) },
                  logs := s0.logs ++ ["healed"] }, true, "heal done")
            else if ue.utype == "cleanse" then
              let kept := s0.player.effects.filter fun e => ¬ ue.remove.contains e.kind
              let removed := s0.player.effects.length - kept.length
              let s1 := { s0 with player := { s0.player with effects := kept } }
              if 0 < removed then (addLog s1 "cleansed", true, "cleanse done")
              else (addLog s1 "nothing to cleanse", true, "no change")
            else if ue.utype == "buff_stats" then
              let spec : EffectSpec :=
                { target := "self", etype := "buff_stats", chance := 1,
                  duration := ue.duration, stats := ue.stats }
              let s1 := applyEffectTo ds rng s0 true spec
              let mh : ℚ := ((playerTotalStats ds s1.player).max_hp : ℤ)
              ({ s1 with player := { s1.player with hp := min s1.player.hp mh } },
               true, "buff applied")
            else (s0, false, "unknown consumable")

/-- The built-in basic-attack virtual skill synthesized in
`BattleEngine._use_skill` when the catalog has no `__basic__` entry. -/
def basicSkill : Skill :=
  { name := "basic attack", base_physical := 10, base_magic := 0,
    scale_attack := 0.2, scale_magic := 0, apply_effect := [] }

/-- Skill lookup with the `__basic__` fallback. -/
def getSkillData (ds : DataStore) (skill_id : String) : Option Skill :=
  match ds.skills skill_id with
  | some sk => some sk
  | none => if skill_id == "__basic__" then some basicSkill else none

/-- The damage computation of `BattleEngine._use_skill`. -/
def skillDamage (sk : Skill) (A D : Stats) : ℤ :=
  let physical := sk.base_physical + (A.attack : ℚ) * sk.scale_attack
  let magic := sk.base_magic + (A.magic : ℚ) * sk.scale_magic
  let phys_final := max 0 (physical - (D.defense : ℚ) * sk.scale_attack)
  let magic_final := max 0 (magic - (D.magic_resist : ℚ) * sk.scale_magic)
  pyInt phys_final + pyInt magic_final

/-- Whether an effect-spec target label resolves to the player:
`self` means the attacker, anything else the defender. -/
def specTargetIsPlayer (ip : Bool) (label : String) : Bool :=
  if label == "self" then ip else !ip

/-- `BattleEngine._finish`: roll loot on a player win with a drop table,
build the result, clear both actors' effects, restore the player's hp to
the freshly recomputed max. -/
def finish (ds : DataStore) (rng : Rng) (s : BattleState) (winner : String) :
    BattleState × BattleResult :=
  let rolled :=
    if winner == "player" then
      match s.drop_table_id with
      | some t =>
          let r := rollDrop rng (ds.drop_tables t) s.fi s.ii
          ({ s with fi := r.2.1, ii := r.2.2, logs := s.logs ++ ["drops"] }, r.1)
      | none => (s, [])
    else (s, [])
  let s1 := rolled.1
  let result : BattleResult :=
    { winner := winner,
      exp := if winner == "player" then s.expected_exp else 0,
      drop_details := rolled.2,
      logs := s1.logs }
  let p1 : Player := { s1.player with effects := [] }
  let e1 : Enemy := { s1.enemy with effects := [] }
  let p2 : Player := { p1 with hp := ((playerTotalStats ds p1).max_hp : ℤ) }
  ({ s1 with player := p2, enemy := e1 }, result)

/-- The `on_hit` accessory proc of `BattleEngine._use_skill` (player
attacker only): roll the special's chance, on success apply the
synthesized effect spec to the defender. -/
def onHitStep (ds : DataStore) (rng : Rng) (s : BattleState) (ip : Bool) :
    BattleState :=
  if ip then
    match s.player.equipment.accessory with
    | some acc_id =>
        match ds.items acc_id with
        | some item =>
            match item.special with
            | some sp =>
                if sp.stype == "on_hit" then
                  let draw := rng.floats s.fi
                  let sa := { s with fi := s.fi + 1 }
                  if draw ≤ sp.chance then
                    let spec : EffectSpec :=
                      { target := "enemy", etype := sp.effect, chance := 1,
                        duration := sp.duration, power := sp.power }
                    applyEffectTo ds rng sa false spec
                  else sa
                else s
            | none => s
        | none => s
    | none => s
  else s

/-- The lifesteal heal at the end of `BattleEngine._use_skill`: heal the
attacker by `int(total_damage * summed power)`, clamped to its max hp. -/
def lifestealStep (ds : DataStore) (s : BattleState) (ip : Bool)
    (total_damage : ℤ) (lifesteal : ℚ) : BattleState :=
  if 0 < lifesteal then
    let heal_amount := pyInt ((total_damage : ℚ) * lifesteal)
    if ip then
      let mh : ℚ := ((playerTotalStats ds s.player).max_hp : ℤ)
      { s with player := { s.player with hp := min mh (s.player.hp + heal_amount) },
               logs := s.logs ++ ["lifesteal"] }
    else
      let mh : ℚ := ((enemyTotalStats s.enemy).max_hp : ℤ)
      { s with enemy := { s.enemy with hp := min mh (s.enemy.hp + heal_amount) },
               logs := s.logs ++ ["lifesteal"] }
  else s

/-- The effect-spec pass of `BattleEngine._use_skill`: `lifesteal` specs
accumulate their power, all other specs are applied to their target. -/
def effectsStep (ds : DataStore) (rng : Rng) (ip : Bool)
    (specs : List EffectSpec) (acc : BattleState × ℚ) : BattleState × ℚ :=
  specs.foldl
    (fun (acc : BattleState × ℚ) eff =>
      if eff.etype == "lifesteal" then (acc.1, acc.2 + eff.power)
      else (applyEffectTo ds rng acc.1 (specTargetIsPlayer ip eff.target) eff, acc.2))
    acc

/-- The body of `BattleEngine._use_skill` after the skill lookup and
before the final defender-death check: damage, logs, effect specs,
on-hit accessory proc, lifesteal heal. -/
def useSkillBody (ds : DataStore) (rng : Rng) (s : BattleState) (ip : Bool)
    (skill : Skill) : BattleState :=
  let A := if ip then playerTotalStats ds s.player else enemyTotalStats s.enemy
  let D := if ip then enemyTotalStats s.enemy else playerTotalStats ds s.player
  let total_damage := skillDamage skill A D
  let s1 := damageDefender s ip total_damage
  let s2 := addLog (addLog s1 ("skill " ++ skill.name)) "damage dealt"
  let stepped := effectsStep ds rng ip skill.apply_effect (s2, 0)
  lifestealStep ds (onHitStep ds rng stepped.1 ip) ip total_damage stepped.2

/-- `BattleEngine._use_skill`. -/
def useSkill (ds : DataStore) (rng : Rng) (s : BattleState) (ip : Bool)
    (skill_id : String) : BattleState × Option BattleResult :=
  match getSkillData ds skill_id with
  | none => (addLog s "unknown skill", none)
  | some skill =>
      let s1 := useSkillBody ds rng s ip skill
      if (if ip then s1.enemy.hp else s1.player.hp) ≤ 0 then
        let f := finish ds rng s1 (if ip then "player" else "enemy")
        (f.1, some f.2)
      else (s1, none)

/-- `BattleEngine._handle_gimmicks` trigger evaluation. -/
def shouldFire (s : BattleState) (g : Gimmick) : Bool :=
  if g.trigger == "every_n_turns" then
    decide (0 < g.n) && decide (s.turn_index % g.n = 0)
  else if g.trigger == "hp_below" then
    let mh : ℤ := if s.enemy.stats.max_hp = 0 then 1 else s.enemy.stats.max_hp
    decide (s.enemy.hp / (mh : ℚ) ≤ g.ratioVal)
  else false

/-- A firing gimmick's action (only `apply_effect` does anything). -/
def applyGimmickAction (ds : DataStore) (rng : Rng) (s : BattleState)
    (g : Gimmick) : BattleState :=
  if g.action_type == "apply_effect" then
    let spec : EffectSpec :=
      { target := g.target, etype := g.effect, chance := 1,
        duration := g.duration, power := g.power }
    applyEffectTo ds rng s (g.target == "player") spec
  else s

def setUsed (s : BattleState) (idx : ℕ) : BattleState :=
  { s with gimmick_used := fun j => if j = idx then true else s.gimmick_used j }

/-- `BattleEngine._handle_gimmicks` over the remaining gimmick list with
the position of its head; also returns the indices that fired. -/
def handleGimmicksAux (ds : DataStore) (rng : Rng) :
    List Gimmick → ℕ → BattleState → BattleState × List ℕ
  | [], _, s => (s, [])
  | g :: rest, idx, s =>
      if g.once && s.gimmick_used idx then handleGimmicksAux ds rng rest (idx + 1) s
      else if shouldFire s g then
        let s1 := applyGimmickAction ds rng s g
        let s2 := if g.once then setUsed s1 idx else s1
        let tl := handleGimmicksAux ds rng rest (idx + 1) s2
        (tl.1, idx :: tl.2)
      else handleGimmicksAux ds rng rest (idx + 1) s

/-- `BattleEngine._handle_gimmicks` (state part plus fired indices). -/
def handleGimmicksF (ds : DataStore) (rng : Rng) (s : BattleState) :
    BattleState × List ℕ :=
  handleGimmicksAux ds rng s.enemy.gimmicks 0 s

/-- `BattleEngine._enemy_action`. -/
def enemyAction (ds : DataStore) (rng : Rng) (s : BattleState) :
    BattleState × Option BattleResult :=
  if canAct s.enemy.effects then
    let s1 := if s.enemy.ai == "boss" then (handleGimmicksF ds rng s).1 else s
    let pool := if s1.enemy.skills = [] then ["__basic__"] else s1.enemy.skills
    let choice := pool.getD (rng.choices s1.ci % pool.length) "__basic__"
    let s2 := { s1 with ci := s1.ci + 1 }
    let used := useSkill ds rng s2 false choice
    match used.2 with
    | some r => (used.1, some r)
    | none =>
        if used.1.player.hp ≤ 0 then
          let f := finish ds rng used.1 "enemy"
          (f.1, some f.2)
        else (used.1, none)
  else (addLog s "enemy is stunned", none)

/-- `effects.tick_end_of_turn` of both actors, player first. -/
def tickBoth (s : BattleState) : BattleState :=
  let tp := tickEffectsCore s.player.hp s.player.effects
  let s1 := { s with player := { s.player with hp := tp.1, effects := tp.2 } }
  let te := tickEffectsCore s1.enemy.hp s1.enemy.effects
  { s1 with enemy := { s1.enemy with hp := te.1, effects := te.2 } }

/-- `BattleEngine._end_of_turn`: tick both actors, check the player's hp
first, then the enemy's. -/
def endOfTurn (ds : DataStore) (rng : Rng) (s : BattleState) :
    BattleState × Option BattleResult :=
  let s1 := tickBoth s
  if s1.player.hp ≤ 0 then
    let f := finish ds rng s1 "enemy"
    (f.1, some f.2)
  else if s1.enemy.hp ≤ 0 then
    let f := finish ds rng s1 "player"
    (f.1, some f.2)
  else (s1, none)

/-- `BattleEngine._after_player_action`: enemy action, then end of turn,
then the turn counters advance (even on an end-of-turn finish). -/
def afterPlayerAction (ds : DataStore) (rng : Rng) (s : BattleState) :
    BattleState × Option BattleResult :=
  let ea := enemyAction ds rng s
  match ea.2 with
  | some r => (ea.1, some r)
  | none =>
      let et := endOfTurn ds rng ea.1
      ({ et.1 with turn := et.1.turn + 1, turn_index := et.1.turn_index + 1 }, et.2)

/-- `BattleEngine.player_use_skill`. -/
def playerUseSkill (ds : DataStore) (rng : Rng) (s : BattleState)
    (skill_id : String) : BattleState × Option BattleResult :=
  if canAct s.player.effects then
    let used := useSkill ds rng s true skill_id
    match used.2 with
    | some r => (used.1, some r)
    | none =>
        if used.1.enemy.hp ≤ 0 then
          let f := finish ds rng used.1 "player"
          (f.1, some f.2)
        else afterPlayerAction ds rng used.1
  else afterPlayerAction ds rng (addLog s "player is stunned")

/-- `BattleEngine.player_basic_attack`. -/
def playerBasicAttack (ds : DataStore) (rng : Rng) (s : BattleState) :
    BattleState × Option BattleResult :=
  playerUseSkill ds rng s "__basic__"

/-- `BattleEngine.player_use_item`. -/
def playerUseItem (ds : DataStore) (rng : Rng) (s : BattleState)
    (item_id : String) : BattleState × Option BattleResult :=
  if canAct s.player.effects then
    if s.player.inventory item_id ≤ 0 then
      afterPlayerAction ds rng (addLog s "item not held")
    else
      let applied := applyConsumableInBattle ds rng s item_id
      let s1 := applied.1
      let s2 :=
        if applied.2.1 then
          { s1 with player :=
              { s1.player with inventory := (removeItem s1.player.inventory item_id 1).1 } }
        else s1
      afterPlayerAction ds rng (addLog s2 applied.2.2)
  else afterPlayerAction ds rng (addLog s "player is stunned")

/-- `progression.exp_to_next`. -/
def exp_to_next (level : ℤ) : ℤ := 20 + level * 10

/-- The level-up `while` loop of `progression.gain_exp`; the source loop
is unbounded, the fuel argument is only a termination bound and
`gain_exp` supplies one that is proven sufficient. -/
def gainExpLoop : ℕ → Player → Player
  | 0, p => p
  | fuel + 1, p =>
      if exp_to_next p.level ≤ p.exp then
        gainExpLoop fuel
          { p with exp := p.exp - exp_to_next p.level,
                   level := p.level + 1,
                   stat_points := p.stat_points + 4 }
      else p

/-- `progression.gain_exp`. -/
def gain_exp (p : Player) (amount : ℤ) : Player :=
  let p1 := { p with exp := p.exp + amount }
  gainExpLoop (p1.exp.toNat + 1) p1

/-- Adds an allocated point amount to a named stat key. -/
def addAllocated (a : Stats) (key : String) (v : ℤ) : Stats :=
  if key == "attack" then { a with attack := a.attack + v }
  else if key == "magic" then { a with magic := a.magic + v }
  else if key == "defense" then { a with defense := a.defense + v }
  else if key == "magic_resist" then { a with magic_resist := a.magic_resist + v }
  else { a with max_hp := a.max_hp + v }

/-- `state_manager.allocate_stat` (core state change; UI signals and the
save call are external collaborators). -/
def allocateStat (ds : DataStore) (p : Player) (stat_key : String)
    (points : ℤ) : Player × Bool :=
  if ¬ (stat_key == "attack" || stat_key == "magic" || stat_key == "defense"
        || stat_key == "magic_resist" || stat_key == "max_hp") then (p, false)
  else
    let spend := max 1 points
    if p.stat_points < spend then (p, false)
    else
      let p1 := { p with stat_points := p.stat_points - spend,
                         allocated_stats := addAllocated p.allocated_stats stat_key spend }
      let mh : ℚ := ((playerTotalStats ds p1).max_hp : ℤ)
      ({ p1 with hp := min p1.hp mh }, true)

/-- Number of equipped copies of an item id. -/
def slotCountId (eq : Equipment) (id : String) : ℤ :=
  (if eq.weapon = some id then 1 else 0)
    + (if eq.armor = some id then 1 else 0)
    + (if eq.accessory = some id then 1 else 0)

/-- Total copies of an item id a player owns, inventory plus equipment. -/
def itemCount (p : Player) (id : String) : ℤ :=
  p.inventory id + slotCountId p.equipment id

/-- Sum of the stat bundles of a list of items. -/
def itemStatsSum (its : List Item) : Stats :=
  its.foldl (fun b it => b.with_bonus it.stats) Stats.zero

/-- Modelled from the spec wording of total-stat computation (§4.1 /
claim C2): one additive step collecting allocated points, equipped item
stats and effect deltas onto the base, then an independent per-field
multiplicative scale from `stat_multiplier` specials, then truncation. -/
def totalStatsSpec (ds : DataStore) (p : Player) : Stats :=
  let its := slotItems ds p.equipment
  let additive :=
    ((p.base_stats.with_bonus p.allocated_stats).with_bonus (itemStatsSum its)).with_bonus
      (effBonus p.effects)
  let m := itemMults its
  { attack := pyInt ((additive.attack : ℚ) * m.attack)
    magic := pyInt ((additive.magic : ℚ) * m.magic)
    defense := pyInt ((additive.defense : ℚ) * m.defense)
    magic_resist := pyInt ((additive.magic_resist : ℚ) * m.magic_resist)
    max_hp := pyInt ((additive.max_hp : ℚ) * m.max_hp) }

/-! ### Shared concrete fixtures -/

def rng0 : Rng := {}

def ds0 : DataStore := {}

def pl0 : Player := { base_stats := { attack := 20, max_hp := 50 }, hp := 50 }

def en0 : Enemy := { stats := { defense := 5, max_hp := 100 }, hp := 100 }

def st0 : BattleState := { player := pl0, enemy := en0 }

/-! ### Stats algebra helpers -/

theorem with_bonus_assoc (a b c : Stats) :
    (a.with_bonus b).with_bonus c = a.with_bonus (b.with_bonus c) := by
  simp [Stats.with_bonus, add_assoc]

theorem with_bonus_zero (a : Stats) : a.with_bonus Stats.zero = a := by
  simp [Stats.with_bonus, Stats.zero]

theorem foldl_item_stats (l : List Item) (init : Stats) :
    l.foldl (fun b it => b.with_bonus it.stats) init
      = init.with_bonus (itemStatsSum l) := by
  induction l generalizing init with
  | nil => simp [itemStatsSum, with_bonus_zero]
  | cons it tl ih =>
      simp only [List.foldl_cons, itemStatsSum] at *
      rw [ih, ih (Stats.zero.with_bonus it.stats), ← with_bonus_assoc,
        ← with_bonus_assoc]
      congr 1
      simp [Stats.with_bonus, Stats.zero]

set_option maxHeartbeats 1000000 in
/-- C1: for every skill use, each damage component is the clamped,
truncated cross-term formula (the defender's stat scaled by the attacking
skill's own factor), total damage is nonnegative, and the concrete basic
attack with attacker attack 20 against defender defense 5 deals exactly
13 damage, both as a formula and through the full engine turn. -/
theorem C1_damage_formula :
    (∀ (sk : Skill) (A D : Stats),
        skillDamage sk A D =
          pyInt (max 0 (sk.base_physical + (A.attack : ℚ) * sk.scale_attack
              - (D.defense : ℚ) * sk.scale_attack))
            + pyInt (max 0 (sk.base_magic + (A.magic : ℚ) * sk.scale_magic
              - (D.magic_resist : ℚ) * sk.scale_magic))
        ∧ 0 ≤ skillDamage sk A D)
    ∧ skillDamage basicSkill { attack := 20 } { defense := 5 } = 13
    ∧ st0.enemy.hp = 100
    ∧ (playerUseSkill ds0 rng0 st0 "__basic__").1.enemy.hp = 100 - 13 := by
  refine ⟨fun sk A D => ⟨rfl, ?_⟩, ?_, rfl, ?_⟩
  · simp only [skillDamage]
    exact add_nonneg (pyInt_nonneg _ (le_max_left _ _)) (pyInt_nonneg _ (le_max_left _ _))
  · norm_num [skillDamage, basicSkill, pyInt]
  · norm_num [playerUseSkill, useSkill, getSkillData, basicSkill, useSkillBody, skillDamage,
      playerTotalStats, enemyTotalStats, effBonus, slotItems, itemMults, pyInt, st0, pl0, en0,
      ds0, rng0, canAct, hasEffect, damageDefender, addLog, specTargetIsPlayer,
      afterPlayerAction, enemyAction, endOfTurn, tickBoth, tickEffectsCore, finish,
      handleGimmicksF, handleGimmicksAux, Stats.with_bonus, Stats.zero, applyMult,
      effectsStep, onHitStep, lifestealStep]

/-- C2: a player's total stats are the base plus one additive step
(allocated points, equipped item stats, active effect deltas) followed by
the per-field product of the equipped `stat_multiplier` specials and a
final truncation — the multipliers apply to the already-buffed value. -/
theorem C2_total_stats_pipeline :
    ∀ (ds : DataStore) (p : Player), playerTotalStats ds p = totalStatsSpec ds p := by
  intro ds p
  simp only [playerTotalStats, totalStatsSpec, foldl_item_stats, with_bonus_assoc]

/-! ### Progression -/

theorem gainExpLoop_post : ∀ (fuel : ℕ) (p : Player), 1 ≤ p.level → 0 ≤ p.exp →
    p.exp.toNat < fuel →
    (gainExpLoop fuel p).exp < exp_to_next (gainExpLoop fuel p).level
      ∧ 1 ≤ (gainExpLoop fuel p).level := by
  intro fuel
  induction fuel with
  | zero => intro p _ _ h; omega
  | succ f ih =>
      intro p hl he hf
      rw [gainExpLoop]
      by_cases hcond : exp_to_next p.level ≤ p.exp
      · rw [if_pos hcond]
        have hth : 30 ≤ exp_to_next p.level := by
          simp only [exp_to_next]; omega
        refine ih _ (by simp; omega) (by simp [exp_to_next] at *; omega) ?_
        simp only [exp_to_next] at *
        omega
      · rw [if_neg hcond]
        exact ⟨lt_of_not_le hcond, hl⟩

def pl9 : Player := { level := 1, exp := 0, stat_points := 0 }

/-- C9: `exp_to_next` is `20 + level * 10` and strictly increasing;
`gain_exp` loops off whole thresholds (multi-level capable), always ends
with `exp < exp_to_next level`, preserves leftover exp, and the concrete
level-1 player gaining 35 exp ends at level 2 with exp 5 and +4 points. -/
theorem C9_progression :
    (∀ l : ℤ, exp_to_next l = 20 + l * 10)
    ∧ (∀ l1 l2 : ℤ, l1 < l2 → exp_to_next l1 < exp_to_next l2)
    ∧ (∀ (p : Player) (amount : ℤ), 1 ≤ p.level → 0 ≤ p.exp → 0 ≤ amount →
        (gain_exp p amount).exp < exp_to_next (gain_exp p amount).level
        ∧ 1 ≤ (gain_exp p amount).level)
    ∧ ((gain_exp pl9 35).level = 2 ∧ (gain_exp pl9 35).exp = 5
        ∧ (gain_exp pl9 35).stat_points = 4)
    ∧ ((gain_exp pl9 75).level = 3 ∧ (gain_exp pl9 75).exp = 5
        ∧ (gain_exp pl9 75).stat_points = 8) := by
  refine ⟨fun l => rfl, fun l1 l2 h => by simp only [exp_to_next]; omega,
    fun p amount hl he ha => ?_, ?_, ?_⟩
  · simp only [gain_exp]
    have hx : ({ p with exp := p.exp + amount } : Player).exp = p.exp + amount := rfl
    have hy : ({ p with exp := p.exp + amount } : Player).level = p.level := rfl
    exact gainExpLoop_post _ _ (by omega) (by omega) (by omega)
  · refine ⟨?_, ?_, ?_⟩ <;> decide
  · refine ⟨?_, ?_, ?_⟩ <;> decide

/-- C9 witness: the loop-invariant conjunct applied to the concrete
level-1 player gaining 35 exp. -/
theorem C9_progression_witness :
    (gain_exp pl9 35).exp < exp_to_next (gain_exp pl9 35).level
      ∧ 1 ≤ (gain_exp pl9 35).level :=
  C9_progression.2.2.1 pl9 35 (by decide) (by decide) (by decide)

/-- C3: battle finish restores the player's hp to the freshly recomputed
total max hp, clears both actors' effect lists, pays the full expected
exp reward exactly when the winner is the player, and rolls loot (and
consumes the generator) only on a player win with a drop table set. -/
theorem C3_battle_finish :
    ∀ (ds : DataStore) (rng : Rng) (s : BattleState) (w : String),
      (finish ds rng s w).1.player.hp
          = (((playerTotalStats ds (finish ds rng s w).1.player).max_hp : ℤ) : ℚ)
      ∧ (finish ds rng s w).1.player.effects = []
      ∧ (finish ds rng s w).1.enemy.effects = []
      ∧ (finish ds rng s w).2.winner = w
      ∧ (finish ds rng s w).2.exp = (if w = "player" then s.expected_exp else 0)
      ∧ (finish ds rng s w).2.drop_details =
          (if w = "player" then
            (match s.drop_table_id with
             | some t => (rollDrop rng (ds.drop_tables t) s.fi s.ii).1
             | none => [])
           else [])
      ∧ (finish ds rng s w).1.fi =
          (if w = "player" then
            (match s.drop_table_id with
             | some t => (rollDrop rng (ds.drop_tables t) s.fi s.ii).2.1
             | none => s.fi)
           else s.fi)
      ∧ (finish ds rng s w).1.ii =
          (if w = "player" then
            (match s.drop_table_id with
             | some t => (rollDrop rng (ds.drop_tables t) s.fi s.ii).2.2
             | none => s.ii)
           else s.ii) := by
  intro ds rng s w
  by_cases hw : w = "player"
  · subst hw
    cases hdt : s.drop_table_id with
    | none => refine ⟨rfl, ?_⟩; simp [finish, hdt]
    | some t => refine ⟨rfl, ?_⟩; simp [finish, hdt]
  · have hb : (w == "player") = false := by simpa using hw
    refine ⟨rfl, ?_⟩
    simp [finish, hb, hw]

/-! ### Stun semantics (C4) -/

/-- A bare stun effect of the given duration. -/
def stunInst (d : ℤ) : EffectInstance := { kind := "stun", duration := d }

/-- One end-of-turn tick of a single actor's (hp, effects) pair. -/
def tick1 (x : ℚ × List EffectInstance) : ℚ × List EffectInstance :=
  tickEffectsCore x.1 x.2

/-- Iterated end-of-turn ticks. -/
def tickIter : ℕ → ℚ × List EffectInstance → ℚ × List EffectInstance
  | 0, x => x
  | k + 1, x => tickIter k (tick1 x)

theorem tick1_stun (d : ℤ) (hp : ℚ) :
    tick1 (hp, [stunInst d]) = (hp, if 0 < d - 1 then [stunInst (d - 1)] else []) := by
  simp [tick1, tickEffectsCore, stunInst]
  split <;> simp

theorem tickIter_stun : ∀ (k : ℕ) (D : ℤ) (hp : ℚ), (k : ℤ) < D →
    tickIter k (hp, [stunInst D]) = (hp, [stunInst (D - k)]) := by
  intro k
  induction k with
  | zero => intro D hp _; simp [tickIter]
  | succ n ih =>
      intro D hp h
      have h1 : ((n : ℤ) + 1) < D := by push_cast at h; omega
      rw [tickIter, tick1_stun, if_pos (by omega)]
      rw [ih (D - 1) hp (by omega)]
      push_cast
      rw [sub_sub, add_comm 1 (n : ℤ)]

theorem canAct_stun (m : ℤ) : canAct [stunInst m] = decide (m ≤ 0) := by
  by_cases h : 0 < m
  · simp [canAct, hasEffect, stunInst, h, not_le.mpr h]
  · simp [canAct, hasEffect, stunInst, h, not_lt.mp h]

theorem tickIter_succ_right : ∀ (k : ℕ) (x : ℚ × List EffectInstance),
    tickIter (k + 1) x = tick1 (tickIter k x) := by
  intro k
  induction k with
  | zero => intro x; rfl
  | succ n ih =>
      intro x
      rw [tickIter, ih]
      rfl

set_option maxHeartbeats 1000000 in
/-- C4: a stun of duration D (with no other effect in play) leaves its
holder unable to act for exactly the D turns it is ticked at end of turn
(its duration decrementing each time), and the holder can act again after
the D-th tick; the engine gates both the player's and the enemy's action
on `can_act`, skipping only the stunned actor's own action. -/
theorem C4_stun_duration :
    ∀ (D : ℕ), 1 ≤ D → ∀ (hp : ℚ),
      (∀ k : ℕ, k < D → canAct (tickIter k (hp, [stunInst (D : ℤ)])).2 = false)
      ∧ canAct (tickIter D (hp, [stunInst (D : ℤ)])).2 = true
      ∧ (∀ k : ℕ, k < D →
          (tickIter k (hp, [stunInst (D : ℤ)])).2 = [stunInst ((D : ℤ) - k)]
          ∧ (tickIter k (hp, [stunInst (D : ℤ)])).1 = hp)
      ∧ (∀ (ds : DataStore) (rng : Rng) (s : BattleState) (sk : String),
            canAct s.player.effects = false →
            playerUseSkill ds rng s sk
              = afterPlayerAction ds rng (addLog s "player is stunned"))
      ∧ (∀ (ds : DataStore) (rng : Rng) (s : BattleState),
            canAct s.enemy.effects = false →
            enemyAction ds rng s = (addLog s "enemy is stunned", none)) := by
  intro D hD hp
  refine ⟨?_, ?_, ?_, ?_, ?_⟩
  · intro k hk
    rw [tickIter_stun k (D : ℤ) hp (by exact_mod_cast hk), canAct_stun]
    simp
    omega
  · obtain ⟨E, hE⟩ : ∃ E, D = E + 1 := ⟨D - 1, by omega⟩
    subst hE
    rw [tickIter_succ_right, tickIter_stun E ((E + 1 : ℕ) : ℤ) hp (by push_cast; omega)]
    have h1 : ((E + 1 : ℕ) : ℤ) - (E : ℕ) = 1 := by push_cast; omega
    rw [h1, tick1_stun]
    norm_num [canAct, hasEffect]
  · intro k hk
    rw [tickIter_stun k (D : ℤ) hp (by exact_mod_cast hk)]
    exact ⟨rfl, rfl⟩
  · intro ds rng s sk h
    simp [playerUseSkill, h]
  · intro ds rng s h
    simp [enemyAction, h]

/-- C4 witness: a duration-2 stun blocks the holder after one tick and
releases it after two. -/
theorem C4_stun_duration_witness :
    canAct (tickIter 1 ((0 : ℚ), [stunInst ((2 : ℕ) : ℤ)])).2 = false
      ∧ canAct (tickIter 2 ((0 : ℚ), [stunInst ((2 : ℕ) : ℤ)])).2 = true :=
  ⟨(C4_stun_duration 2 (by norm_num) 0).1 1 (by norm_num),
   (C4_stun_duration 2 (by norm_num) 0).2.1⟩

/-- State components an enemy turn never touches: the player's inventory
and equipment, the turn counters, and the enemy's gimmick list. -/
def presv (a b : BattleState) : Prop :=
  a.player.inventory = b.player.inventory
  ∧ a.player.equipment = b.player.equipment
  ∧ a.turn = b.turn
  ∧ a.turn_index = b.turn_index
  ∧ a.enemy.gimmicks = b.enemy.gimmicks

theorem presv_refl (a : BattleState) : presv a a := ⟨rfl, rfl, rfl, rfl, rfl⟩

theorem presv_trans {a b c : BattleState} (h1 : presv a b) (h2 : presv b c) :
    presv a c := by
  obtain ⟨x1, x2, x3, x4, x5⟩ := h1
  obtain ⟨y1, y2, y3, y4, y5⟩ := h2
  exact ⟨x1.trans y1, x2.trans y2, x3.trans y3, x4.trans y4, x5.trans y5⟩

theorem addLog_presv (s : BattleState) (l : String) : presv (addLog s l) s :=
  ⟨rfl, rfl, rfl, rfl, rfl⟩

theorem damageDefender_presv (s : BattleState) (ip : Bool) (d : ℤ) :
    presv (damageDefender s ip d) s := by
  unfold damageDefender
  split <;> exact ⟨rfl, rfl, rfl, rfl, rfl⟩

theorem applyEffectBody_presv (ds : DataStore) (s : BattleState) (tp : Bool)
    (spec : EffectSpec) : presv (applyEffectBody ds s tp spec) s := by
  simp only [applyEffectBody]
  split_ifs <;> exact ⟨rfl, rfl, rfl, rfl, rfl⟩

theorem applyEffectTo_presv (ds : DataStore) (rng : Rng) (s : BattleState)
    (tp : Bool) (spec : EffectSpec) : presv (applyEffectTo ds rng s tp spec) s := by
  simp only [applyEffectTo]
  split_ifs
  · exact presv_trans (applyEffectBody_presv ds _ tp spec) ⟨rfl, rfl, rfl, rfl, rfl⟩
  · exact presv_trans (addLog_presv _ _) ⟨rfl, rfl, rfl, rfl, rfl⟩
  · exact applyEffectBody_presv ds s tp spec

theorem effectsStep_presv (ds : DataStore) (rng : Rng) (ip : Bool) :
    ∀ (specs : List EffectSpec) (acc : BattleState × ℚ),
      presv (effectsStep ds rng ip specs acc).1 acc.1 := by
  intro specs
  induction specs with
  | nil => intro acc; exact presv_refl _
  | cons e tl ih =>
      intro acc
      rw [effectsStep, List.foldl_cons]
      by_cases h : (e.etype == "lifesteal") = true
      · rw [if_pos h]
        exact ih (acc.1, acc.2 + e.power)
      · rw [if_neg h]
        exact presv_trans
          (ih (applyEffectTo ds rng acc.1 (specTargetIsPlayer ip e.target) e, acc.2))
          (applyEffectTo_presv ds rng acc.1 _ e)

theorem onHitStep_presv (ds : DataStore) (rng : Rng) (s : BattleState) (ip : Bool) :
    presv (onHitStep ds rng s ip) s := by
  simp only [onHitStep]
  split
  · split
    · split
      · split
        · split_ifs
          · exact presv_trans (applyEffectTo_presv ds rng _ false _)
              ⟨rfl, rfl, rfl, rfl, rfl⟩
          · exact ⟨rfl, rfl, rfl, rfl, rfl⟩
          · exact presv_refl s
        · exact presv_refl s
      · exact presv_refl s
    · exact presv_refl s
  · exact presv_refl s

theorem lifestealStep_presv (ds : DataStore) (s : BattleState) (ip : Bool)
    (td : ℤ) (ls : ℚ) : presv (lifestealStep ds s ip td ls) s := by
  simp only [lifestealStep]
  split_ifs <;> exact ⟨rfl, rfl, rfl, rfl, rfl⟩

theorem useSkillBody_presv (ds : DataStore) (rng : Rng) (s : BattleState)
    (ip : Bool) (skill : Skill) : presv (useSkillBody ds rng s ip skill) s := by
  simp only [useSkillBody]
  exact presv_trans (lifestealStep_presv ds _ ip _ _)
    (presv_trans (onHitStep_presv ds rng _ ip)
      (presv_trans (effectsStep_presv ds rng ip skill.apply_effect _)
        (presv_trans (addLog_presv _ _)
          (presv_trans (addLog_presv _ _) (damageDefender_presv s ip _)))))

theorem finish_presv (ds : DataStore) (rng : Rng) (s : BattleState) (w : String) :
    presv (finish ds rng s w).1 s := by
  simp only [finish]
  split_ifs
  · cases s.drop_table_id <;> exact ⟨rfl, rfl, rfl, rfl, rfl⟩
  · exact ⟨rfl, rfl, rfl, rfl, rfl⟩

theorem useSkill_presv (ds : DataStore) (rng : Rng) (s : BattleState) (ip : Bool)
    (skill_id : String) : presv (useSkill ds rng s ip skill_id).1 s := by
  simp only [useSkill]
  split
  · exact addLog_presv s _
  · split_ifs <;>
      first
        | exact presv_trans (finish_presv ds rng _ _) (useSkillBody_presv ds rng s ip _)
        | exact useSkillBody_presv ds rng s ip _

theorem setUsed_presv (s : BattleState) (idx : ℕ) : presv (setUsed s idx) s :=
  ⟨rfl, rfl, rfl, rfl, rfl⟩

theorem applyGimmickAction_presv (ds : DataStore) (rng : Rng) (s : BattleState)
    (g : Gimmick) : presv (applyGimmickAction ds rng s g) s := by
  simp only [applyGimmickAction]
  split_ifs
  · exact applyEffectTo_presv ds rng s _ _
  · exact presv_refl s

theorem handleGimmicksAux_presv (ds : DataStore) (rng : Rng) :
    ∀ (l : List Gimmick) (idx : ℕ) (s : BattleState),
      presv (handleGimmicksAux ds rng l idx s).1 s := by
  intro l
  induction l with
  | nil => intro idx s; exact presv_refl s
  | cons g tl ih =>
      intro idx s
      simp only [handleGimmicksAux]
      split_ifs
      · exact ih (idx + 1) s
      · refine presv_trans (ih (idx + 1) _) ?_
        exact presv_trans (setUsed_presv _ idx) (applyGimmickAction_presv ds rng s g)
      · refine presv_trans (ih (idx + 1) _) ?_
        exact applyGimmickAction_presv ds rng s g
      · exact ih (idx + 1) s

theorem tickBoth_presv (s : BattleState) : presv (tickBoth s) s :=
  ⟨rfl, rfl, rfl, rfl, rfl⟩

theorem endOfTurn_presv (ds : DataStore) (rng : Rng) (s : BattleState) :
    presv (endOfTurn ds rng s).1 s := by
  simp only [endOfTurn]
  split_ifs
  · exact presv_trans (finish_presv ds rng _ _) (tickBoth_presv s)
  · exact presv_trans (finish_presv ds rng _ _) (tickBoth_presv s)
  · exact tickBoth_presv s

theorem handleGimmicksF_presv (ds : DataStore) (rng : Rng) (s : BattleState) :
    presv (handleGimmicksF ds rng s).1 s :=
  handleGimmicksAux_presv ds rng s.enemy.gimmicks 0 s

theorem enemyAction_presv (ds : DataStore) (rng : Rng) (s : BattleState) :
    presv (enemyAction ds rng s).1 s := by
  simp only [enemyAction]
  split_ifs <;> (try exact addLog_presv s _) <;> (try split) <;>
    first
      | exact presv_trans (useSkill_presv ds rng _ false _)
          (presv_trans ⟨rfl, rfl, rfl, rfl, rfl⟩ (handleGimmicksF_presv ds rng s))
      | exact presv_trans (finish_presv ds rng _ _)
          (presv_trans (useSkill_presv ds rng _ false _)
            (presv_trans ⟨rfl, rfl, rfl, rfl, rfl⟩ (handleGimmicksF_presv ds rng s)))
      | exact presv_trans (useSkill_presv ds rng _ false _) ⟨rfl, rfl, rfl, rfl, rfl⟩

theorem afterPlayerAction_inv (ds : DataStore) (rng : Rng) (s : BattleState) :
    (afterPlayerAction ds rng s).1.player.inventory = s.player.inventory
    ∧ (afterPlayerAction ds rng s).1.player.equipment = s.player.equipment := by
  simp only [afterPlayerAction]
  split
  · have h := enemyAction_presv ds rng s
    exact ⟨h.1, h.2.1⟩
  · have h1 := enemyAction_presv ds rng s
    have h2 := endOfTurn_presv ds rng (enemyAction ds rng s).1
    exact ⟨h2.1.trans h1.1, h2.2.1.trans h1.2.1⟩


set_option maxHeartbeats 1000000 in
/-- C5 counterexample: attempting to use an item that is not held during
a battle is not a state-preserving no-op — the engine still hands the
turn to the enemy, so the turn counter advances and the player's hp
drops under the enemy's counterattack. -/
theorem C5_counterexample :
    st0.turn = 1 ∧ st0.player.hp = 50
    ∧ (playerUseItem ds0 rng0 st0 "potion").1.turn = 2
    ∧ (playerUseItem ds0 rng0 st0 "potion").1.player.hp = 40 := by
  refine ⟨rfl, rfl, ?_, ?_⟩ <;>
    norm_num [playerUseItem, applyConsumableInBattle, playerUseSkill, useSkill, getSkillData,
      basicSkill, useSkillBody, skillDamage, playerTotalStats, enemyTotalStats, effBonus,
      slotItems, itemMults, pyInt, st0, pl0, en0, ds0, rng0, canAct, hasEffect,
      damageDefender, addLog, specTargetIsPlayer, afterPlayerAction, enemyAction, endOfTurn,
      tickBoth, tickEffectsCore, finish, handleGimmicksF, handleGimmicksAux,
      Stats.with_bonus, Stats.zero, applyMult, effectsStep, onHitStep, lifestealStep]

/-- C5 (amended): illegal player actions never raise and never perform
the requested mutation — a failed equip, unequip or stat allocation
leaves the player exactly unchanged, and an over-spend of stat points
always fails; in battle, acting while stunned or using an item that is
not held resolves no skill or item and leaves the inventory and
equipment untouched, but the turn is still consumed (the enemy acts and
the counters advance via `afterPlayerAction`). -/
theorem C5_illegal_actions :
    (∀ (ds : DataStore) (p : Player) (id : String),
        (equipItem ds p id).2.1 = false → (equipItem ds p id).1 = p)
    ∧ (∀ (p : Player) (slot : String),
        (unequipSlot p slot).2.1 = false → (unequipSlot p slot).1 = p)
    ∧ (∀ (ds : DataStore) (p : Player) (key : String) (pts : ℤ),
        (allocateStat ds p key pts).2 = false → (allocateStat ds p key pts).1 = p)
    ∧ (∀ (ds : DataStore) (p : Player) (key : String) (pts : ℤ),
        p.stat_points < max 1 pts → (allocateStat ds p key pts).2 = false)
    ∧ (∀ (ds : DataStore) (rng : Rng) (s : BattleState) (sk : String),
        canAct s.player.effects = false →
        playerUseSkill ds rng s sk
          = afterPlayerAction ds rng (addLog s "player is stunned"))
    ∧ (∀ (ds : DataStore) (rng : Rng) (s : BattleState) (id : String),
        canAct s.player.effects = true → s.player.inventory id ≤ 0 →
        playerUseItem ds rng s id
          = afterPlayerAction ds rng (addLog s "item not held"))
    ∧ (∀ (ds : DataStore) (rng : Rng) (s : BattleState),
        (afterPlayerAction ds rng s).1.player.inventory = s.player.inventory
        ∧ (afterPlayerAction ds rng s).1.player.equipment = s.player.equipment) := by
  refine ⟨?_, ?_, ?_, ?_, ?_, ?_, afterPlayerAction_inv⟩
  · intro ds p id
    simp only [equipItem]
    split
    · simp
    · split_ifs <;> simp
  · intro p slot
    simp only [unequipSlot]
    split_ifs <;> first | (split <;> simp) | simp
  · intro ds p key pts
    simp only [allocateStat]
    split_ifs <;> simp
  · intro ds p key pts h
    simp only [allocateStat]
    split_ifs <;> rfl
  · intro ds rng s sk h
    simp [playerUseSkill, h]
  · intro ds rng s id hca hinv
    simp [playerUseItem, hca, hinv]

/-- C5 witness: the amended statement applied to a concrete failing
equip (unknown item id) and a concrete not-held item use. -/
theorem C5_illegal_actions_witness :
    (equipItem ds0 pl0 "sword").1 = pl0
    ∧ playerUseItem ds0 rng0 st0 "potion"
        = afterPlayerAction ds0 rng0 (addLog st0 "item not held") :=
  ⟨C5_illegal_actions.1 ds0 pl0 "sword" (by norm_num [equipItem, ds0]),
   C5_illegal_actions.2.2.2.2.2.1 ds0 rng0 st0 "potion" (by norm_num [canAct, hasEffect, st0, pl0])
     (by norm_num [st0, pl0])⟩

theorem finish_winner (ds : DataStore) (rng : Rng) (s : BattleState) (w : String) :
    (finish ds rng s w).2.winner = w := rfl

def stK : BattleState :=
  { player := pl0, enemy := { stats := { defense := 5, max_hp := 100 }, hp := 5 } }

def stB : BattleState :=
  { player := { pl0 with effects := [{ kind := "bleed", duration := 1, power := 100 }] },
    enemy := en0 }

set_option maxHeartbeats 1000000 in
/-- C6: if the player's skill resolution leaves the enemy at 0 hp, the
battle finishes immediately with winner "player" — the state is exactly
`finish` of the post-skill state, and the turn counters never advance,
so no enemy action or end-of-turn tick happens that turn; and at the
end-of-turn tick the player's hp is checked first, so whenever the
player is at 0 hp after the tick (including a double knockout) the
battle resolves with winner "enemy". -/
theorem C6_termination_order :
    (∀ (ds : DataStore) (rng : Rng) (s : BattleState) (sk : String) (skill : Skill),
        getSkillData ds sk = some skill →
        canAct s.player.effects = true →
        (useSkillBody ds rng s true skill).enemy.hp ≤ 0 →
        playerUseSkill ds rng s sk
            = ((finish ds rng (useSkillBody ds rng s true skill) "player").1,
               some (finish ds rng (useSkillBody ds rng s true skill) "player").2)
          ∧ (playerUseSkill ds rng s sk).1.turn = s.turn
          ∧ (playerUseSkill ds rng s sk).1.turn_index = s.turn_index
          ∧ (playerUseSkill ds rng s sk).2.map BattleResult.winner = some "player")
    ∧ (∀ (ds : DataStore) (rng : Rng) (s : BattleState),
        (tickBoth s).player.hp ≤ 0 →
        (endOfTurn ds rng s).2.map BattleResult.winner = some "enemy"
        ∧ (endOfTurn ds rng s).1 = (finish ds rng (tickBoth s) "enemy").1) := by
  constructor
  · intro ds rng s sk skill hsk hca hdead
    have heq : playerUseSkill ds rng s sk
        = ((finish ds rng (useSkillBody ds rng s true skill) "player").1,
           some (finish ds rng (useSkillBody ds rng s true skill) "player").2) := by
      simp only [playerUseSkill, useSkill, hca, hsk, hdead, if_true, ite_true]
    have hpres := presv_trans
      (finish_presv ds rng (useSkillBody ds rng s true skill) "player")
      (useSkillBody_presv ds rng s true skill)
    rw [heq]
    exact ⟨rfl, hpres.2.2.1, hpres.2.2.2.1, by simp [finish_winner]⟩
  · intro ds rng s hdead
    constructor
    · simp only [endOfTurn, hdead, if_true, ite_true]
      simp [finish_winner]
    · simp only [endOfTurn, hdead, if_true, ite_true]

/-- C6 witness: a lethal basic attack ends the battle at once with a
player win, and a lethal bleed tick on the player resolves as an enemy
win. -/
theorem C6_termination_order_witness :
    (playerUseSkill ds0 rng0 stK "__basic__").2.map BattleResult.winner = some "player"
    ∧ (endOfTurn ds0 rng0 stB).2.map BattleResult.winner = some "enemy" :=
  ⟨(C6_termination_order.1 ds0 rng0 stK "__basic__" basicSkill rfl rfl
      (by norm_num [useSkillBody, skillDamage, basicSkill, playerTotalStats, enemyTotalStats,
        effBonus, slotItems, itemMults, pyInt, stK, pl0, ds0, rng0, damageDefender, addLog,
        specTargetIsPlayer, effectsStep, onHitStep, lifestealStep, Stats.with_bonus,
        Stats.zero, applyMult])).2.2.2,
   (C6_termination_order.2 ds0 rng0 stB
      (by norm_num [tickBoth, tickEffectsCore, stB, pl0, en0])).1⟩

theorem applyEffectBody_used (ds : DataStore) (s : BattleState) (tp : Bool)
    (spec : EffectSpec) : (applyEffectBody ds s tp spec).gimmick_used = s.gimmick_used := by
  simp only [applyEffectBody]
  split_ifs <;> rfl

theorem applyEffectTo_used (ds : DataStore) (rng : Rng) (s : BattleState) (tp : Bool)
    (spec : EffectSpec) : (applyEffectTo ds rng s tp spec).gimmick_used = s.gimmick_used := by
  simp only [applyEffectTo]
  split_ifs <;> first | rfl | (rw [applyEffectBody_used])

theorem applyGimmickAction_used (ds : DataStore) (rng : Rng) (s : BattleState)
    (g : Gimmick) : (applyGimmickAction ds rng s g).gimmick_used = s.gimmick_used := by
  simp only [applyGimmickAction]
  split_ifs
  · rw [applyEffectTo_used]
  · rfl

theorem applyGimmickAction_tix (ds : DataStore) (rng : Rng) (s : BattleState)
    (g : Gimmick) : (applyGimmickAction ds rng s g).turn_index = s.turn_index :=
  (applyGimmickAction_presv ds rng s g).2.2.2.1

theorem setUsed_mono (s : BattleState) (idx j : ℕ) (h : s.gimmick_used j = true) :
    (setUsed s idx).gimmick_used j = true := by
  simp only [setUsed]
  split_ifs <;> simp [h]

theorem setUsed_ne (s : BattleState) (idx j : ℕ) (h : j ≠ idx) :
    (setUsed s idx).gimmick_used j = s.gimmick_used j := by
  simp only [setUsed]
  rw [if_neg h]

theorem shouldFire_everyN (s : BattleState) (g : Gimmick)
    (ht : g.trigger = "every_n_turns") :
    (shouldFire s g = true ↔ (0 < g.n ∧ s.turn_index % g.n = 0)) := by
  simp [shouldFire, ht]

theorem aux_fired_ge (ds : DataStore) (rng : Rng) :
    ∀ (l : List Gimmick) (idx : ℕ) (s : BattleState) (j : ℕ),
      j ∈ (handleGimmicksAux ds rng l idx s).2 → idx ≤ j := by
  intro l
  induction l with
  | nil => intro idx s j h; simp [handleGimmicksAux] at h
  | cons g tl ih =>
      intro idx s j h
      simp only [handleGimmicksAux] at h
      split_ifs at h
      · exact Nat.le_of_succ_le (ih _ _ _ h)
      · rcases List.mem_cons.mp h with h0 | h1
        · omega
        · exact Nat.le_of_succ_le (ih _ _ _ h1)
      · rcases List.mem_cons.mp h with h0 | h1
        · omega
        · exact Nat.le_of_succ_le (ih _ _ _ h1)
      · exact Nat.le_of_succ_le (ih _ _ _ h)

theorem count_cons_bound (rest : List ℕ) (idx j : ℕ)
    (hge : ∀ x ∈ rest, idx + 1 ≤ x) (hc : List.count j rest ≤ 1) :
    List.count j (idx :: rest) ≤ 1 := by
  by_cases hj : j = idx
  · subst hj
    have hz : List.count j rest = 0 :=
      List.count_eq_zero.mpr fun hm => by have := hge _ hm; omega
    simp [List.count_cons, hz]
  · rw [List.count_cons]
    have : (idx == j) = false := by simpa using fun hx => hj hx.symm
    simp [this, hc]

theorem aux_count (ds : DataStore) (rng : Rng) :
    ∀ (l : List Gimmick) (idx : ℕ) (s : BattleState) (j : ℕ),
      List.count j (handleGimmicksAux ds rng l idx s).2 ≤ 1 := by
  intro l
  induction l with
  | nil => intro idx s j; simp [handleGimmicksAux]
  | cons g tl ih =>
      intro idx s j
      simp only [handleGimmicksAux]
      split_ifs
      · exact ih _ _ _
      · exact count_cons_bound _ idx j (fun x hx => aux_fired_ge ds rng tl (idx + 1) _ x hx)
          (ih _ _ _)
      · exact count_cons_bound _ idx j (fun x hx => aux_fired_ge ds rng tl (idx + 1) _ x hx)
          (ih _ _ _)
      · exact ih _ _ _

theorem setUsed_tix (s : BattleState) (idx : ℕ) :
    (setUsed s idx).turn_index = s.turn_index := rfl

theorem setUsed_self (s : BattleState) (idx : ℕ) :
    (setUsed s idx).gimmick_used idx = true := by
  simp [setUsed]

theorem aux_used_mono (ds : DataStore) (rng : Rng) :
    ∀ (l : List Gimmick) (idx : ℕ) (s : BattleState) (j : ℕ),
      s.gimmick_used j = true →
      (handleGimmicksAux ds rng l idx s).1.gimmick_used j = true := by
  intro l
  induction l with
  | nil => intro idx s j h; simpa [handleGimmicksAux] using h
  | cons g tl ih =>
      intro idx s j h
      simp only [handleGimmicksAux]
      split_ifs
      · exact ih _ _ _ h
      · exact ih _ _ _ (setUsed_mono _ idx j (by rw [applyGimmickAction_used]; exact h))
      · exact ih _ _ _ (by rw [applyGimmickAction_used]; exact h)
      · exact ih _ _ _ h

theorem aux_fired_once_used (ds : DataStore) (rng : Rng) :
    ∀ (l : List Gimmick) (idx : ℕ) (s : BattleState) (j : ℕ) (g : Gimmick),
      l[j - idx]? = some g → idx ≤ j → g.once = true →
      j ∈ (handleGimmicksAux ds rng l idx s).2 →
      (handleGimmicksAux ds rng l idx s).1.gimmick_used j = true := by
  intro l
  induction l with
  | nil => intro idx s j g hg hle ho hm; simp [handleGimmicksAux] at hm
  | cons g0 tl ih =>
      intro idx s j g hg hle ho hm
      by_cases hj : j = idx
      · subst hj
        rw [Nat.sub_self, List.getElem?_cons_zero] at hg
        obtain rfl := Option.some.inj hg
        revert hm
        simp only [handleGimmicksAux]
        split_ifs with h1 h2
        · intro hm
          exact absurd (aux_fired_ge ds rng tl (j + 1) s j hm) (by omega)
        · intro _
          exact aux_used_mono ds rng tl (j + 1) _ j (setUsed_self _ j)
        · intro hm
          exact absurd (aux_fired_ge ds rng tl (j + 1) s j hm) (by omega)
      · have hlt : idx + 1 ≤ j := by omega
        have hg2 : tl[j - (idx + 1)]? = some g := by
          have hsub : j - idx = (j - (idx + 1)) + 1 := by omega
          rw [hsub, List.getElem?_cons_succ] at hg
          exact hg
        revert hm
        simp only [handleGimmicksAux]
        split_ifs with h1 h2 h3
        · intro hm
          exact ih _ _ _ _ hg2 hlt ho hm
        · intro hm
          rcases List.mem_cons.mp hm with h0 | hm1
          · exact absurd h0 hj
          · exact ih _ _ _ _ hg2 hlt ho hm1
        · intro hm
          rcases List.mem_cons.mp hm with h0 | hm1
          · exact absurd h0 hj
          · exact ih _ _ _ _ hg2 hlt ho hm1
        · intro hm
          exact ih _ _ _ _ hg2 hlt ho hm

theorem aux_used_not_fired (ds : DataStore) (rng : Rng) :
    ∀ (l : List Gimmick) (idx : ℕ) (s : BattleState) (j : ℕ) (g : Gimmick),
      s.gimmick_used j = true → l[j - idx]? = some g → idx ≤ j → g.once = true →
      j ∉ (handleGimmicksAux ds rng l idx s).2 := by
  intro l
  induction l with
  | nil => intro idx s j g hu hg hle ho; simp [handleGimmicksAux]
  | cons g0 tl ih =>
      intro idx s j g hu hg hle ho
      by_cases hj : j = idx
      · subst hj
        rw [Nat.sub_self, List.getElem?_cons_zero] at hg
        obtain rfl := Option.some.inj hg
        have hcond : (g0.once && s.gimmick_used j) = true := by simp [ho, hu]
        simp only [handleGimmicksAux, hcond, if_true]
        intro hm
        exact absurd (aux_fired_ge ds rng tl (j + 1) s j hm) (by omega)
      · have hlt : idx + 1 ≤ j := by omega
        have hg2 : tl[j - (idx + 1)]? = some g := by
          have hsub : j - idx = (j - (idx + 1)) + 1 := by omega
          rw [hsub, List.getElem?_cons_succ] at hg
          exact hg
        simp only [handleGimmicksAux]
        split_ifs with h1 h2 h3
        · exact ih _ _ _ _ hu hg2 hlt ho
        · intro hm
          rcases List.mem_cons.mp hm with h0 | hm1
          · exact hj h0
          · exact ih _ _ _ _
              (by rw [setUsed_ne _ idx j hj, applyGimmickAction_used]; exact hu)
              hg2 hlt ho hm1
        · intro hm
          rcases List.mem_cons.mp hm with h0 | hm1
          · exact hj h0
          · exact ih _ _ _ _ (by rw [applyGimmickAction_used]; exact hu) hg2 hlt ho hm1
        · exact ih _ _ _ _ hu hg2 hlt ho

theorem aux_everyN (ds : DataStore) (rng : Rng) :
    ∀ (l : List Gimmick) (idx : ℕ) (s : BattleState) (j : ℕ) (g : Gimmick),
      l[j - idx]? = some g → idx ≤ j →
      g.trigger = "every_n_turns" → g.once = false →
      (j ∈ (handleGimmicksAux ds rng l idx s).2
        ↔ (0 < g.n ∧ s.turn_index % g.n = 0)) := by
  intro l
  induction l with
  | nil => intro idx s j g hg hle ht ho; simp at hg
  | cons g0 tl ih =>
      intro idx s j g hg hle ht ho
      by_cases hj : j = idx
      · subst hj
        rw [Nat.sub_self, List.getElem?_cons_zero] at hg
        obtain rfl := Option.some.inj hg
        have hskip : (g0.once && s.gimmick_used j) = false := by simp [ho]
        simp only [handleGimmicksAux, hskip, Bool.false_eq_true, if_false]
        by_cases hf : shouldFire s g0 = true
        · rw [if_pos hf]
          constructor
          · intro _
            exact (shouldFire_everyN s g0 ht).mp hf
          · intro _
            exact List.mem_cons_self _ _
        · rw [if_neg hf]
          constructor
          · intro hm
            exact absurd (aux_fired_ge ds rng tl (j + 1) s j hm) (by omega)
          · intro hcond
            exact absurd ((shouldFire_everyN s g0 ht).mpr hcond) hf
      · have hlt : idx + 1 ≤ j := by omega
        have hg2 : tl[j - (idx + 1)]? = some g := by
          have hsub : j - idx = (j - (idx + 1)) + 1 := by omega
          rw [hsub, List.getElem?_cons_succ] at hg
          exact hg
        have key : ∀ s2 : BattleState, s2.turn_index = s.turn_index →
            (j ∈ (handleGimmicksAux ds rng tl (idx + 1) s2).2
              ↔ (0 < g.n ∧ s.turn_index % g.n = 0)) := by
          intro s2 hs2
          simpa [hs2] using ih (idx + 1) s2 j g hg2 hlt ht ho
        simp only [handleGimmicksAux]
        split_ifs with h1 h2 h3
        · exact key s rfl
        · have htix : (setUsed (applyGimmickAction ds rng s g0) idx).turn_index
              = s.turn_index :=
            (setUsed_tix _ idx).trans (applyGimmickAction_tix ds rng s g0)
          constructor
          · intro hm
            rcases List.mem_cons.mp hm with h0 | hm1
            · exact absurd h0 hj
            · exact (key _ htix).mp hm1
          · intro hc
            exact List.mem_cons_of_mem _ ((key _ htix).mpr hc)
        · constructor
          · intro hm
            rcases List.mem_cons.mp hm with h0 | hm1
            · exact absurd h0 hj
            · exact (key _ (applyGimmickAction_tix ds rng s g0)).mp hm1
          · intro hc
            exact List.mem_cons_of_mem _
              ((key _ (applyGimmickAction_tix ds rng s g0)).mpr hc)
        · exact key s rfl

/-- A whole battle's worth of gimmick evaluations: each entry of
`states` is the battle situation at one evaluation (hp, turn counters and
effects evolve arbitrarily between evaluations), while the per-gimmick
used-flags thread through exactly as `BattleState.gimmick_used` does. -/
def runGimmickSeq (ds : DataStore) (rng : Rng) :
    List BattleState → (ℕ → Bool) → (ℕ → Bool) × List ℕ
  | [], used => (used, [])
  | s :: rest, used =>
      let h := handleGimmicksF ds rng { s with gimmick_used := used }
      let tl := runGimmickSeq ds rng rest h.1.gimmick_used
      (tl.1, h.2 ++ tl.2)

theorem seq_once (ds : DataStore) (rng : Rng) :
    ∀ (states : List BattleState) (used0 : ℕ → Bool) (G : List Gimmick)
      (j : ℕ) (g : Gimmick),
      (∀ s ∈ states, s.enemy.gimmicks = G) → G[j]? = some g → g.once = true →
      ((used0 j = true → List.count j (runGimmickSeq ds rng states used0).2 = 0)
        ∧ List.count j (runGimmickSeq ds rng states used0).2 ≤ 1) := by
  intro states
  induction states with
  | nil => intro used0 G j g hG hg ho; simp [runGimmickSeq]
  | cons s rest ih =>
      intro used0 G j g hG hg ho
      have hsg : ({ s with gimmick_used := used0 } : BattleState).enemy.gimmicks = G :=
        hG s (List.mem_cons_self s rest)
      have hGrest : ∀ x ∈ rest, x.enemy.gimmicks = G :=
        fun x hx => hG x (List.mem_cons_of_mem s hx)
      have hg1 : ({ s with gimmick_used := used0 } : BattleState).enemy.gimmicks[j]?
          = some g := by
        rw [hsg]; exact hg
      have hcnt1 : List.count j
          (handleGimmicksF ds rng { s with gimmick_used := used0 }).2 ≤ 1 :=
        aux_count ds rng _ 0 _ j
      have ihud := ih (handleGimmicksF ds rng
          { s with gimmick_used := used0 }).1.gimmick_used G j g hGrest hg ho
      simp only [runGimmickSeq, List.count_append]
      constructor
      · intro hu
        have hnot : j ∉ (handleGimmicksF ds rng { s with gimmick_used := used0 }).2 :=
          aux_used_not_fired ds rng _ 0 _ j g hu hg1 (Nat.zero_le j) ho
        have h0 : List.count j
            (handleGimmicksF ds rng { s with gimmick_used := used0 }).2 = 0 :=
          List.count_eq_zero.mpr hnot
        have hkeep : (handleGimmicksF ds rng
            { s with gimmick_used := used0 }).1.gimmick_used j = true :=
          aux_used_mono ds rng _ 0 _ j hu
        have h1 := ihud.1 hkeep
        omega
      · by_cases hu : used0 j = true
        · have hnot : j ∉ (handleGimmicksF ds rng { s with gimmick_used := used0 }).2 :=
            aux_used_not_fired ds rng _ 0 _ j g hu hg1 (Nat.zero_le j) ho
          have h0 : List.count j
              (handleGimmicksF ds rng { s with gimmick_used := used0 }).2 = 0 :=
            List.count_eq_zero.mpr hnot
          have hkeep : (handleGimmicksF ds rng
              { s with gimmick_used := used0 }).1.gimmick_used j = true :=
            aux_used_mono ds rng _ 0 _ j hu
          have h1 := ihud.1 hkeep
          omega
        · by_cases hm : j ∈ (handleGimmicksF ds rng { s with gimmick_used := used0 }).2
          · have hused : (handleGimmicksF ds rng
                { s with gimmick_used := used0 }).1.gimmick_used j = true :=
              aux_fired_once_used ds rng _ 0 _ j g hg1 (Nat.zero_le j) ho hm
            have h1 := ihud.1 hused
            omega
          · have h0 : List.count j
                (handleGimmicksF ds rng { s with gimmick_used := used0 }).2 = 0 :=
              List.count_eq_zero.mpr hm
            have h1 := ihud.2
            omega

set_option maxHeartbeats 1000000 in
/-- C7: a boss gimmick with `once = true` fires at most once over any
whole battle (any sequence of gimmick evaluations threading the used
flags, however the rest of the state evolves in between), and a gimmick
with trigger `every_n_turns` and `once = false` fires at an evaluation
exactly when the turn index is a positive multiple of n — hence with
n = 3 at turn index 3, 6, 9, … indefinitely. -/
theorem C7_gimmicks :
    (∀ (ds : DataStore) (rng : Rng) (states : List BattleState) (used0 : ℕ → Bool)
        (G : List Gimmick) (j : ℕ) (g : Gimmick),
        (∀ s ∈ states, s.enemy.gimmicks = G) → G[j]? = some g → g.once = true →
        List.count j (runGimmickSeq ds rng states used0).2 ≤ 1)
    ∧ (∀ (ds : DataStore) (rng : Rng) (s : BattleState) (j : ℕ) (g : Gimmick),
        s.enemy.gimmicks[j]? = some g →
        g.trigger = "every_n_turns" → g.once = false →
        (j ∈ (handleGimmicksF ds rng s).2
          ↔ (0 < g.n ∧ s.turn_index % g.n = 0))) :=
  ⟨fun ds rng states used0 G j g hG hg ho =>
      (seq_once ds rng states used0 G j g hG hg ho).2,
   fun ds rng s j g hg ht ho =>
      aux_everyN ds rng s.enemy.gimmicks 0 s j g hg (Nat.zero_le j) ht ho⟩

def gOnce : Gimmick := { trigger := "every_n_turns", n := 1, once := true }

def gEvery : Gimmick := { trigger := "every_n_turns", n := 3, once := false }

def sG : BattleState :=
  { player := pl0, enemy := { ai := "boss", gimmicks := [gOnce] }, turn_index := 1 }

def sG3 : BattleState :=
  { player := pl0, enemy := { ai := "boss", gimmicks := [gEvery] }, turn_index := 3 }

/-- C7 witness: a once-gimmick evaluated twice over a two-step battle
fires at most once, and the concrete n = 3 every-n gimmick at turn
index 3 fires exactly because 3 mod 3 = 0. -/
theorem C7_gimmicks_witness :
    List.count 0 (runGimmickSeq ds0 rng0 [sG, sG] (fun _ => false)).2 ≤ 1
    ∧ (0 ∈ (handleGimmicksF ds0 rng0 sG3).2
        ↔ (0 < gEvery.n ∧ sG3.turn_index % gEvery.n = 0)) :=
  ⟨C7_gimmicks.1 ds0 rng0 [sG, sG] (fun _ => false) [gOnce] 0 gOnce
      (by
        intro x hx
        rcases List.mem_cons.mp hx with h1 | hx1
        · rw [h1]; rfl
        · rcases List.mem_cons.mp hx1 with h2 | hx2
          · rw [h2]; rfl
          · cases hx2)
      rfl rfl,
   C7_gimmicks.2 ds0 rng0 sG3 0 gEvery rfl rfl rfl⟩


theorem rollDropAux_length (rng : Rng) :
    ∀ (table : List DropEntry) (fi ii : ℕ),
      (rollDropAux rng table fi ii).1.length ≤ table.length := by
  intro table
  induction table with
  | nil => intro fi ii; simp [rollDropAux]
  | cons e tl ih =>
      intro fi ii
      simp only [rollDropAux]
      split_ifs
      · cases he : e.item with
        | none =>
            simp only [he]
            exact le_trans (ih (fi + 1) ii) (Nat.le_succ _)
        | some id =>
            simp only [he]
            simpa using Nat.succ_le_succ (ih (fi + 1) (ii + 1))
      · exact le_trans (ih (fi + 1) ii) (Nat.le_succ _)

theorem rollDropAux_mem (rng : Rng) :
    ∀ (table : List DropEntry) (fi ii : ℕ) (pr : String × ℤ),
      pr ∈ (rollDropAux rng table fi ii).1 →
      ∃ e ∈ table, e.item = some pr.1
        ∧ min e.minQ e.maxQ ≤ pr.2 ∧ pr.2 ≤ max e.minQ e.maxQ := by
  intro table
  induction table with
  | nil => intro fi ii pr h; simp [rollDropAux] at h
  | cons e tl ih =>
      intro fi ii pr h
      simp only [rollDropAux] at h
      split_ifs at h
      · cases he : e.item with
        | none =>
            simp only [he] at h
            obtain ⟨e1, he1, hrest⟩ := ih (fi + 1) ii pr h
            exact ⟨e1, List.mem_cons_of_mem e he1, hrest⟩
        | some id =>
            simp only [he] at h
            rcases List.mem_cons.mp h with h0 | h1
            · obtain rfl := h0
              have hm : (0 : ℤ) < max e.minQ e.maxQ - min e.minQ e.maxQ + 1 := by
                have := min_le_max (a := e.minQ) (b := e.maxQ)
                omega
              have hx1 := Int.emod_nonneg (rng.ints ii : ℤ)
                (b := max e.minQ e.maxQ - min e.minQ e.maxQ + 1) (by omega)
              have hx2 := Int.emod_lt_of_pos (rng.ints ii : ℤ) hm
              refine ⟨e, List.mem_cons_self e tl, he, ?_, ?_⟩
              · show min e.minQ e.maxQ ≤ min e.minQ e.maxQ
                  + (rng.ints ii : ℤ) % (max e.minQ e.maxQ - min e.minQ e.maxQ + 1)
                omega
              · show min e.minQ e.maxQ
                    + (rng.ints ii : ℤ) % (max e.minQ e.maxQ - min e.minQ e.maxQ + 1)
                  ≤ max e.minQ e.maxQ
                omega
            · obtain ⟨e1, he1, hrest⟩ := ih (fi + 1) (ii + 1) pr h1
              exact ⟨e1, List.mem_cons_of_mem e he1, hrest⟩
      · obtain ⟨e1, he1, hrest⟩ := ih (fi + 1) ii pr h
        exact ⟨e1, List.mem_cons_of_mem e he1, hrest⟩

theorem rollDropAux_certain (rng : Rng) (hr : ∀ n, rng.floats n < 1) :
    ∀ (table : List DropEntry) (fi ii : ℕ) (j : ℕ) (e : DropEntry) (id : String),
      table[j]? = some e → e.chance = 1 → e.item = some id →
      ∃ q, (id, q) ∈ (rollDropAux rng table fi ii).1 := by
  intro table
  induction table with
  | nil => intro fi ii j e id hj _ _; simp at hj
  | cons e0 tl ih =>
      intro fi ii j e id hj hc hi
      cases j with
      | zero =>
          rw [List.getElem?_cons_zero] at hj
          obtain rfl := Option.some.inj hj
          have hfire : rng.floats fi ≤ e0.chance := by
            rw [hc]
            exact le_of_lt (hr fi)
          simp only [rollDropAux, if_pos hfire, hi]
          exact ⟨_, List.mem_cons_self _ _⟩
      | succ k =>
          rw [List.getElem?_cons_succ] at hj
          simp only [rollDropAux]
          split_ifs
          · cases he0 : e0.item with
            | none =>
                simp only [he0]
                exact ih (fi + 1) ii k e id hj hc hi
            | some id0 =>
                simp only [he0]
                obtain ⟨q, hq⟩ := ih (fi + 1) (ii + 1) k e id hj hc hi
                exact ⟨q, List.mem_cons_of_mem _ hq⟩
          · exact ih (fi + 1) ii k e id hj hc hi

theorem rollDropAux_zeroChance (rng : Rng) (hr0 : ∀ n, 0 ≤ rng.floats n)
    (e : DropEntry) (fi ii : ℕ) (hc : e.chance = 0)
    (hne : (rollDropAux rng [e] fi ii).1 ≠ []) : rng.floats fi = 0 := by
  by_contra hne0
  have hpos : 0 < rng.floats fi := lt_of_le_of_ne (hr0 fi) (Ne.symm hne0)
  have hnot : ¬ (rng.floats fi ≤ e.chance) := by
    rw [hc]
    exact not_le.mpr hpos
  apply hne
  simp [rollDropAux, hnot]

def zeroEntry : DropEntry := { item := some "a", chance := 0, minQ := 1, maxQ := 1 }

def oneEntry : DropEntry := { item := some "b", chance := 1, minQ := 2, maxQ := 5 }

/-- C8 counterexample: the draw is `random() <= chance`, so a
chance-0.0 entry does fire on the legitimate generator outcome
`random() = 0.0` — the all-zero stream is inside `[0, 1)`, yet the roll
yields the item. -/
theorem C8_counterexample :
    (∀ n, 0 ≤ rng0.floats n ∧ rng0.floats n < 1)
    ∧ zeroEntry.chance = 0
    ∧ (rollDrop rng0 [zeroEntry] 0 0).1 = [("a", 1)] := by
  refine ⟨fun n => ⟨le_refl 0, by norm_num [rng0]⟩, rfl, ?_⟩
  norm_num [rollDrop, rollDropAux, rng0, zeroEntry]

set_option maxHeartbeats 400000 in
/-- C8 (amended): drop-table entries are drawn independently — each
entry contributes at most one pair per roll (so the result is never
longer than the table), an entry with chance 1.0 always yields its item,
and every emitted quantity lies in the inclusive range
[min(min,max), max(min,max)]; however, a chance-0.0 entry is not
immune for every generator outcome: it fires exactly on the
measure-zero outcome `random() = 0.0`, never for any outcome `> 0`. -/
theorem C8_loot :
    ∀ (rng : Rng) (table : List DropEntry) (fi ii : ℕ),
      (∀ n, 0 ≤ rng.floats n ∧ rng.floats n < 1) →
      ((rollDrop rng table fi ii).1.length ≤ table.length)
      ∧ (∀ pr ∈ (rollDrop rng table fi ii).1, ∃ e ∈ table,
            e.item = some pr.1 ∧ min e.minQ e.maxQ ≤ pr.2 ∧ pr.2 ≤ max e.minQ e.maxQ)
      ∧ (∀ (j : ℕ) (e : DropEntry) (id : String), table[j]? = some e →
            e.chance = 1 → e.item = some id →
            ∃ q, (id, q) ∈ (rollDrop rng table fi ii).1)
      ∧ (∀ e : DropEntry, e.chance = 0 →
            (rollDrop rng [e] fi ii).1 ≠ [] → rng.floats fi = 0) := by
  intro rng table fi ii hr
  refine ⟨rollDropAux_length rng table fi ii, rollDropAux_mem rng table fi ii, ?_, ?_⟩
  · intro j e id hj hc hi
    exact rollDropAux_certain rng (fun n => (hr n).2) table fi ii j e id hj hc hi
  · intro e hc hne
    exact rollDropAux_zeroChance rng (fun n => (hr n).1) e fi ii hc hne

/-- C8 witness: a chance-1.0 entry with quantity range [2, 5] always
yields its item under the all-zero generator stream. -/
theorem C8_loot_witness :
    ∃ q, ("b", q) ∈ (rollDrop rng0 [oneEntry] 0 0).1 :=
  (C8_loot rng0 [oneEntry] 0 0 (fun n => ⟨le_refl 0, by norm_num [rng0]⟩)).2.2.1
    0 oneEntry "b" rfl rfl rfl

theorem addItem_one (inv : String → ℤ) (i j : String) :
    addItem inv i 1 j = inv j + (if j = i then 1 else 0) := by
  simp only [addItem]
  split_ifs with h
  · subst h
    norm_num
  · omega

theorem removeItem_one (inv : String → ℤ) (i j : String) (h : 1 ≤ inv i) :
    (removeItem inv i 1).1 j = inv j - (if j = i then 1 else 0) := by
  simp only [removeItem]
  have hmax : max (1 : ℤ) 1 = 1 := by norm_num
  rw [if_neg (by omega)]
  simp only []
  split_ifs with hj
  · subst hj
    omega
  · omega

theorem getSlot_setSlot (eq : Equipment) (slot : String) (v : Option String) :
    slotOk slot = true → getSlot (setSlot eq slot v) slot = v := by
  intro hs
  simp only [slotOk, Bool.or_eq_true, beq_iff_eq] at hs
  rcases hs with (h | h) | h <;> subst h <;> simp [getSlot, setSlot]

theorem slotCount_setSlot (eq : Equipment) (slot : String) (v : Option String)
    (j : String) (hs : slotOk slot = true) :
    slotCountId (setSlot eq slot v) j
      = slotCountId eq j - (if getSlot eq slot = some j then 1 else 0)
        + (if v = some j then 1 else 0) := by
  simp only [slotOk, Bool.or_eq_true, beq_iff_eq] at hs
  rcases hs with (h | h) | h <;> subst h <;>
    simp only [slotCountId, getSlot, setSlot] <;>
    split_ifs <;> simp_all

theorem itemCount_unequip (p : Player) (slot : String) :
    ∀ j, itemCount (unequipSlot p slot).1 j = itemCount p j := by
  intro j
  simp only [unequipSlot]
  split_ifs with hs
  · cases hc : getSlot p.equipment slot with
    | none => rfl
    | some cur =>
        simp only [hc, itemCount, addItem_one]
        rw [slotCount_setSlot p.equipment slot none j hs, hc]
        by_cases hj : j = cur
        · subst hj
          simp
          try omega
        · simp [hj, Ne.symm hj]
          try omega
  · rfl

theorem itemCount_equip (ds : DataStore) (p : Player) (id : String) :
    ∀ j, itemCount (equipItem ds p id).1 j = itemCount p j := by
  intro j
  simp only [equipItem]
  split
  · rfl
  · rename_i item heq
    by_cases h1 : item.itype ≠ "equipment"
    · rw [if_pos h1]
    · rw [if_neg h1]
      by_cases h2 : ¬ slotOk item.slot
      · rw [if_pos h2]
      · rw [if_neg h2]
        by_cases h3 : p.inventory id ≤ 0
        · rw [if_pos h3]
        · rw [if_neg h3]
          have hsl : slotOk item.slot = true := not_not.mp h2
          have hinv : 1 ≤ p.inventory id := by omega
          cases hprev : getSlot p.equipment item.slot with
          | none =>
              dsimp only [itemCount]
              rw [removeItem_one _ _ _ hinv,
                slotCount_setSlot p.equipment item.slot (some id) j hsl, hprev]
              by_cases hji : j = id
              · subst hji
                simp
              · have hji2 : ¬ id = j := fun h => hji h.symm
                simp [hji, hji2]
          | some pv =>
              have hinv2 : 1 ≤ addItem p.inventory pv 1 id := by
                rw [addItem_one]
                split_ifs <;> omega
              dsimp only [itemCount]
              rw [removeItem_one _ _ _ hinv2, addItem_one,
                slotCount_setSlot p.equipment item.slot (some id) j hsl, hprev]
              by_cases hji : j = id <;> by_cases hjp : j = pv
              · subst hji
                subst hjp
                simp
              · have hjp2 : ¬ pv = j := fun h => hjp h.symm
                subst hji
                simp [hjp, hjp2]
                try omega
              · have hji2 : ¬ id = j := fun h => hji h.symm
                subst hjp
                simp [hji, hji2]
                try omega
              · have hji2 : ¬ id = j := fun h => hji h.symm
                have hjp2 : ¬ pv = j := fun h => hjp h.symm
                simp [hji, hjp, hji2, hjp2]
                try omega

theorem equip_success_slot (ds : DataStore) (p : Player) (id : String) :
    (equipItem ds p id).2.1 = true →
    ∃ item, ds.items id = some item
      ∧ getSlot (equipItem ds p id).1.equipment item.slot = some id := by
  simp only [equipItem]
  split
  · simp
  · rename_i item heq
    by_cases h1 : item.itype ≠ "equipment"
    · rw [if_pos h1]
      simp
    · rw [if_neg h1]
      by_cases h2 : ¬ slotOk item.slot
      · rw [if_pos h2]
        simp
      · rw [if_neg h2]
        by_cases h3 : p.inventory id ≤ 0
        · rw [if_pos h3]
          simp
        · rw [if_neg h3]
          intro _
          have hsl : slotOk item.slot = true := not_not.mp h2
          refine ⟨item, heq, ?_⟩
          cases hprev : getSlot p.equipment item.slot <;>
            exact getSlot_setSlot _ item.slot (some id) hsl

set_option maxHeartbeats 400000 in
/-- C10: `equip_item` either fails (unknown id, non-equipment type,
invalid slot, or no copy in inventory) leaving the player unchanged, or
succeeds placing the item into its declared slot; and both a successful
equip (which swaps the previous occupant back into the inventory) and
`unequip_slot` preserve the total count of every item id summed over the
inventory and the equipped slots. -/
theorem C10_equip_conservation :
    ∀ (ds : DataStore) (p : Player) (id slot : String),
      ((equipItem ds p id).2.1 = false → (equipItem ds p id).1 = p)
      ∧ (∀ j, itemCount (equipItem ds p id).1 j = itemCount p j)
      ∧ (∀ j, itemCount (unequipSlot p slot).1 j = itemCount p j)
      ∧ ((unequipSlot p slot).2.1 = false → (unequipSlot p slot).1 = p)
      ∧ ((equipItem ds p id).2.1 = true →
          ∃ item, ds.items id = some item
            ∧ getSlot (equipItem ds p id).1.equipment item.slot = some id) := by
  intro ds p id slot
  refine ⟨?_, itemCount_equip ds p id, itemCount_unequip p slot, ?_,
    equip_success_slot ds p id⟩
  · simp only [equipItem]
    split
    · simp
    · split_ifs <;> simp
  · simp only [unequipSlot]
    split_ifs <;> first | (split <;> simp) | simp

def dsEq : DataStore :=
  { items := fun i =>
      if i = "sword" then
        some { itype := "equipment", slot := "weapon", name := "Sword" }
      else none }

def plE : Player := { inventory := fun i => if i = "sword" then 1 else 0 }

/-- C10 witness: equipping the one held sword succeeds, puts it into the
weapon slot, and keeps its total count at one. -/
theorem C10_equip_conservation_witness :
    itemCount (equipItem dsEq plE "sword").1 "sword" = itemCount plE "sword"
    ∧ ∃ item, dsEq.items "sword" = some item
        ∧ getSlot (equipItem dsEq plE "sword").1.equipment item.slot = some "sword" :=
  ⟨(C10_equip_conservation dsEq plE "sword" "weapon").2.1 "sword",
   (C10_equip_conservation dsEq plE "sword" "weapon").2.2.2.2
     (by norm_num [equipItem, dsEq, plE, slotOk, getSlot, setSlot, addItem, removeItem])⟩


end TCTP
